import Mathlib

/-!
# Verification of the dot-block DNS resolver core

Shallow embedding of the Go sources of `rm-hull/dot-block`:

* `internal/slog_adapter.go` — the round-robin upstream client
  (`RoundRobinClient`, `getNextUpstream`, `Exchange`);
* `internal/blocklist/blocklist.go` — the probabilistic blocklist
  (`IsBlocked`, `Load`), with the Bloom filter abstracted as an exact
  membership oracle (a `String → Bool` test function);
* `internal/blocklist/update.go` — the periodic refresh job (`Run`);
* `internal/forwarder` (dispatcher in `unnamed/part_012`, matching
  `internal/dns.go`) — `HandleDNSRequest`, `processQuestion`,
  `resolveUpstream`, `sendResponse`, `getCacheKey`;
* `internal/metrics/space_saver.go` — the Space-Saving heavy-hitter
  tracker (`Add`, `TopN`) and `internal/metrics/dns_metrics.go`'s
  `newSpaceSaverStatsCallback`.

Machine integers: the Go `uint32` counter is a `Nat` reduced `% 2^32`;
Go's `%` on `int` is truncated division, embedded as `Int.tmod`.
Go slice indexing is embedded as an `Option`-valued access, `none`
standing for the runtime panic on an out-of-range index.
-/

namespace DotBlock

/-! ## Go string primitives -/

/-- Whether the final character is a dot (in UTF-8 a trailing `'.'`
byte is exactly a trailing `'.'` character, so this matches Go's
byte-level suffix tests). -/
def endsWithDot (s : String) : Bool :=
  s.data.getLast? = some '.'

/-- Go `strings.CutSuffix(s, ".")`: remove one trailing dot if present. -/
def cutSuffixDot (s : String) : String :=
  if endsWithDot s then String.mk s.data.dropLast else s

/-- miekg/dns `Fqdn`: ensure the name carries a trailing dot. -/
def Fqdn (s : String) : String :=
  if endsWithDot s then s else s ++ "."

/-- miekg/dns numeric type codes (the fragment the resolver meets). -/
def TypeA : Nat := 1
def TypeSOA : Nat := 6
def TypeMX : Nat := 15
def TypeAAAA : Nat := 28
def ClassINET : Nat := 1

/-- miekg/dns `TypeToString` map (restricted to the codes above; a code
outside the map yields the Go zero value `""`). -/
def TypeToString (t : Nat) : String :=
  if t = TypeA then "A"
  else if t = TypeSOA then "SOA"
  else if t = TypeMX then "MX"
  else if t = TypeAAAA then "AAAA"
  else ""

/-- miekg/dns rcodes used by the dispatcher. -/
def RcodeSuccess : Nat := 0
def RcodeServerFailure : Nat := 2
def RcodeNameError : Nat := 3
def RcodeRefused : Nat := 5

/-- miekg/dns `RcodeToString` (fragment). -/
def RcodeToString (rc : Nat) : String :=
  if rc = RcodeSuccess then "NOERROR"
  else if rc = RcodeServerFailure then "SERVFAIL"
  else if rc = RcodeNameError then "NXDOMAIN"
  else if rc = RcodeRefused then "REFUSED"
  else ""

/-! ## Round-robin upstream client (`internal/slog_adapter.go`) -/

/-- Go slice read `xs[i]` with an `int` index: `none` is the runtime
panic on an out-of-range (in particular negative) index. -/
def goSliceGet (xs : List String) (i : Int) : Option String :=
  if h : 0 ≤ i ∧ i.toNat < xs.length then some (xs.get ⟨i.toNat, h.2⟩) else none

/-- `RoundRobinClient`: the upstream list and the `uint32` counter
(kept `< 2^32`; the DNS client handle itself carries no state). -/
structure RoundRobinClient where
  upstreams : List String
  counter : Nat

def uint32Mod : Nat := 4294967296

/-- `getNextUpstream`: `n := atomic.AddUint32(&r.counter, 1)` then
`r.upstreams[(int(n)-1) % len(r.upstreams)]`.  Go's `%` on `int` is
truncated division (`Int.tmod`); an empty upstream list would divide by
zero in Go, modelled as `none`. -/
def RoundRobinClient.getNextUpstream (r : RoundRobinClient) :
    RoundRobinClient × Option String :=
  let n := (r.counter + 1) % uint32Mod
  let r' : RoundRobinClient := { r with counter := n }
  if r.upstreams.length = 0 then (r', none)
  else (r', goSliceGet r.upstreams (Int.tmod ((n : Int) - 1) (r.upstreams.length : Int)))

/-- `m` sequential `Exchange` calls: the endpoints chosen, in order
(`Exchange` forwards to the selected upstream; only the selection is
relevant here). -/
def RoundRobinClient.runCalls (r : RoundRobinClient) : Nat → RoundRobinClient × List (Option String)
  | 0 => (r, [])
  | m + 1 =>
    let (r1, sel) := r.getNextUpstream
    let (r2, rest) := r1.runCalls m
    (r2, sel :: rest)

/-! ## Question fingerprint (`getCacheKey`, dispatcher) -/

/-- DNS question: name and numeric query type. -/
structure Question where
  name : String
  qtype : Nat
deriving DecidableEq, Repr

/-- `getQueryType` (forwarder variant): `dns.TypeToString[q.Qtype]`. -/
def getQueryType (q : Question) : String :=
  TypeToString q.qtype

/-- `getCacheKey`: `dns.Fqdn(q.Name) + ":" + getQueryType(q)`.
Note the source applies no case folding. -/
def getCacheKey (q : Question) : String :=
  Fqdn q.name ++ ":" ++ getQueryType q

/-! ## Blocklist (`internal/blocklist/blocklist.go`, `update.go`)

The Bloom filter is embedded as an exact membership set over the loaded
items (a sound instance of the filter's behaviour; its false positives
are not modelled).  The Public Suffix List lookup
`publicsuffix.EffectiveTLDPlusOne` is an external library, embedded as
an oracle `String → Except String String` returning either the eTLD+1
or an error message; the source inspects the message with
`strings.HasPrefix(err.Error(), "publicsuffix: cannot derive eTLD+1")`. -/

def pslCannotDerive : String := "publicsuffix: cannot derive eTLD+1"

/-- Go `strings.HasPrefix` (byte prefix = character-list prefix). -/
def hasPrefixStr (s pre : String) : Bool :=
  pre.data.isPrefixOf s.data

/-- A PSL oracle: the behaviour of `publicsuffix.EffectiveTLDPlusOne`. -/
def PslOracle : Type := String → Except String String

/-- `BlockList`: the Bloom-filter contents as an exact item set. -/
structure BlockList where
  items : List String

/-- `bloomFilter.TestString` under the exact-set embedding. -/
def BlockList.TestString (bl : BlockList) (s : String) : Bool :=
  bl.items.contains s

/-- `Load`: rebuild the filter from `items` and swap it in (the mutex
and metrics update are concurrency/observability, elided). -/
def BlockList.Load (_bl : BlockList) (items : List String) : BlockList :=
  { items := items }

/-- `IsBlocked` over an abstract membership test (the control flow of
`blocklist.go`): strip one trailing dot; exact membership; else eTLD+1;
a PSL error whose message starts with `pslCannotDerive` means the
domain is its own public suffix → `ok false`; other PSL errors
propagate; else membership of the eTLD+1. -/
def IsBlockedWith (test : String → Bool) (psl : PslOracle) (fqdn : String) :
    Except String Bool :=
  let domain := cutSuffixDot fqdn
  if test domain then .ok true
  else
    match psl domain with
    | .error e =>
      if hasPrefixStr e pslCannotDerive then .ok false else .error e
    | .ok apexDomain => .ok (test apexDomain)

/-- `BlockList.IsBlocked`, the source method, instantiating the test
with the (embedded) Bloom filter. -/
def BlockList.IsBlocked (bl : BlockList) (psl : PslOracle) (fqdn : String) :
    Except String Bool :=
  IsBlockedWith bl.TestString psl fqdn

/-- The spec's own wording of the `is_blocked` procedure (§4.1), over an
abstract PSL outcome: `selfPublicSuffix` is "the lookup reports that the
domain *is* its own public suffix". -/
inductive PslOutcome where
  | selfPublicSuffix
  | failure (e : String)
  | apex (d : String)

/-- §4.1 procedure, written from the spec's words: strip trailing dot;
exact membership → true; self-public-suffix → false, no error; other
PSL failure → error; else membership of the eTLD+1. -/
def isBlockedSpec (test : String → Bool) (pslSpec : String → PslOutcome)
    (fqdn : String) : Except String Bool :=
  let domain := cutSuffixDot fqdn
  if test domain then .ok true
  else
    match pslSpec domain with
    | .selfPublicSuffix => .ok false
    | .failure e => .error e
    | .apex d => .ok (test d)

/-- `BlocklistUpdater.Run` (`update.go`): fetch; on error only log;
then `Load` the accumulated items unconditionally.  The fetch outcome
is the pair `(items, error?)` returned by `Fetch`. -/
def BlocklistUpdater.Run (fetched : List String × Option String)
    (bl : BlockList) : BlockList :=
  let (items, _err) := fetched
  bl.Load items

/-! ## DNS messages (miekg/dns fragment used by the dispatcher) -/

/-- `dns.RR_Header`. -/
structure RR_Header where
  Name : String
  Rrtype : Nat
  Class : Nat
  Ttl : Nat
deriving DecidableEq, Repr

/-- `dns.RR`: the SOA record the dispatcher synthesises, and a generic
constructor for every other record kind (opaque payload). -/
inductive RR where
  | soa (Hdr : RR_Header) (Ns Mbox : String)
      (Serial Refresh Retry Expire Minttl : Nat)
  | generic (Hdr : RR_Header) (rdata : String)
deriving DecidableEq, Repr

/-- `RR.Header()`. -/
def RR.Header : RR → RR_Header
  | .soa h _ _ _ _ _ _ _ => h
  | .generic h _ => h

/-- `dns.Msg` (fields the dispatcher touches). -/
structure Msg where
  Id : Nat
  Rcode : Nat
  RecursionDesired : Bool
  Question : List Question
  Answer : List RR
  Ns : List RR
deriving DecidableEq, Repr

/-! ## DNS dispatcher (`unnamed/part_012` forwarder, = `internal/dns.go`)

State threaded explicitly: the reply cache (the expirable cache's
key → RRs view; LRU recency and expiry are time-dependent and elided),
the metric counters the claims mention (each counter is the list of its
`Inc`/`Observe` label arguments, in call order), and the log of
messages passed to `writer.WriteMsg`.  Elided as pure observability:
wall-clock latency histograms, client-IP heavy-hitter/HLL updates,
logging, and the Sentry capture. -/

structure Metrics where
  /-- `dns_error_count`, one `category` label per `Inc`. -/
  ErrorCounts : List String
  /-- `dns_request_count`, one `type` label per `Inc`. -/
  RequestCounts : List String
  /-- `dns_query_count`, one `(record_type, blocked)` pair per `Inc`. -/
  QueryCounts : List (String × String)
  /-- `dns_reply_count`, one `rcode` label per `Inc`. -/
  ReplyCounts : List String
  /-- `TopDomains.Add` arguments. -/
  TopDomains : List String
  /-- `dns_upstream_ttl_seconds`, one `(record_type, ttl)` per `Observe`. -/
  UpstreamTTLs : List (String × Nat)
deriving DecidableEq, Repr

structure DState where
  cache : List (String × List RR)
  metrics : Metrics
  /-- Messages handed to `writer.WriteMsg`, in order. -/
  written : List Msg
deriving DecidableEq, Repr

/-- The dispatcher's collaborators for one request: the blocklist
verdict per name, the upstream exchange (`none` = transport error),
and whether `writer.WriteMsg` succeeds. -/
structure Env where
  blockList : String → Except String Bool
  upstream : Msg → Option Msg
  writeOk : Bool
  freshId : Nat

/-- `cache.Get`. -/
def cacheGet (c : List (String × List RR)) (key : String) : Option (List RR) :=
  (c.find? (fun p => p.1 = key)).map (·.2)

/-- `cache.Set` (TTL expiry is time-dependent, elided). -/
def cacheSet (c : List (String × List RR)) (key : String) (v : List RR) :
    List (String × List RR) :=
  (key, v) :: c.filter (fun p => ¬ p.1 = key)

/-- `reportError`: log (elided), `dns_error_count{category}`,
`dns_request_count{errored}`, Sentry (elided). -/
def reportError (st : DState) (category : String) : DState :=
  { st with metrics := { st.metrics with
      ErrorCounts := st.metrics.ErrorCounts ++ [category],
      RequestCounts := st.metrics.RequestCounts ++ ["errored"] } }

/-- `sendResponse`: `dns_reply_count{rcode}`, then one `WriteMsg`; a
failed write is reported (`category="response"`) and not retried. -/
def sendResponse (writeOk : Bool) (st : DState) (msg : Msg) : DState :=
  let st1 : DState :=
    { st with
      metrics := { st.metrics with
        ReplyCounts := st.metrics.ReplyCounts ++ [RcodeToString msg.Rcode] },
      written := st.written ++ [msg] }
  if writeOk then st1 else reportError st1 "response"

/-- The synthesised blocked record of `processQuestion`
(`defaultTTL = 300`). -/
def blockedSOA (name : String) : RR :=
  .soa { Name := name, Rrtype := TypeSOA, Class := ClassINET, Ttl := 300 }
    "ns.blocked.local." "hostmaster.blocked.local." 1 3600 900 604800 300

/-- `processQuestion`: heavy-hitter track, blocklist consult (error
reported with `category="blocklist"`), blocked → the SOA singleton,
else query-count and cache lookup (`[]` = unanswered). -/
def processQuestion (env : Env) (st : DState) (q : Question) :
    DState × Except String (List RR) :=
  let queryType := getQueryType q
  let st0 : DState := { st with metrics :=
    { st.metrics with TopDomains := st.metrics.TopDomains ++ [q.name] } }
  match env.blockList q.name with
  | .error e => (reportError st0 "blocklist", .error e)
  | .ok true =>
    let st1 : DState := { st0 with metrics :=
      { st0.metrics with QueryCounts := st0.metrics.QueryCounts ++ [(queryType, "true")] } }
    (st1, .ok [blockedSOA q.name])
  | .ok false =>
    let st1 : DState := { st0 with metrics :=
      { st0.metrics with QueryCounts := st0.metrics.QueryCounts ++ [(queryType, "false")] } }
    match cacheGet st1.cache (getCacheKey q) with
    | some cachedRRs => (st1, .ok cachedRRs)
    | none => (st1, .ok [])

/-- The per-question loop of `HandleDNSRequest`: accumulate answers and
unanswered questions; a `processQuestion` error aborts the loop. -/
def questionLoop (env : Env) : DState → List Question → List RR → List Question →
    DState × Except Unit (List RR × List Question)
  | st, [], answers, unanswered => (st, .ok (answers, unanswered))
  | st, q :: qs, answers, unanswered =>
    match processQuestion env st q with
    | (st1, .error _) => (st1, .error ())
    | (st1, .ok ans) =>
      if ans.length > 0 then questionLoop env st1 qs (answers ++ ans) unanswered
      else questionLoop env st1 qs answers (unanswered ++ [q])

/-- The per-question caching pass of `resolveUpstream`: for each
unanswered question whose key groups at least one upstream answer,
cache the bucket under the question's key with the bucket head's TTL
and observe that TTL. -/
def cacheUpstreamAnswers (upstreamAnswer : List RR) :
    DState → List Question → DState
  | st, [] => st
  | st, q :: qs =>
    let key := getCacheKey q
    let answersForQuestion := upstreamAnswer.filter
      (fun ans => Fqdn ans.Header.Name ++ ":" ++ TypeToString ans.Header.Rrtype = key)
    match answersForQuestion with
    | [] => cacheUpstreamAnswers upstreamAnswer st qs
    | a0 :: rest =>
      let st1 : DState :=
        { st with
          cache := cacheSet st.cache key (a0 :: rest),
          metrics := { st.metrics with
            UpstreamTTLs := st.metrics.UpstreamTTLs ++ [(getQueryType q, a0.Header.Ttl)] } }
      cacheUpstreamAnswers upstreamAnswer st1 qs

/-- `resolveUpstream`: fresh-id outbound query with the unanswered
questions; transport error → `(SERVFAIL, nil, err)`; non-NOERROR rcode
→ `(rcode, nil, err)` (note: a non-nil error!) with no caching; else
cache per question and return `(upstreamReq.Rcode = 0, answers, nil)`.
`forwardQuery`'s `dns_request_count{forwarded}` increment is kept;
its latency histogram is elided. -/
def resolveUpstream (env : Env) (st : DState)
    (unansweredQuestions : List Question) (req : Msg) :
    DState × (Nat × List RR × Option String) :=
  let upstreamReq : Msg :=
    { Id := env.freshId, Rcode := RcodeSuccess,
      RecursionDesired := req.RecursionDesired,
      Question := unansweredQuestions, Answer := [], Ns := [] }
  let st0 : DState := { st with metrics :=
    { st.metrics with RequestCounts := st.metrics.RequestCounts ++ ["forwarded"] } }
  match env.upstream upstreamReq with
  | none => (st0, (RcodeServerFailure, [], some "upstream exchange failed"))
  | some upstreamResp =>
    if upstreamResp.Rcode ≠ RcodeSuccess then
      (st0, (upstreamResp.Rcode, [],
        some ("resolver returned a non-success Rcode: " ++ RcodeToString upstreamResp.Rcode)))
    else
      let st1 := cacheUpstreamAnswers upstreamResp.Answer st0 unansweredQuestions
      (st1, (upstreamReq.Rcode, upstreamResp.Answer, none))

/-- The deferred block of `HandleDNSRequest`: latency observation
(elided) and `dns_request_count{total}`; runs on every exit path. -/
def finishRequest (st : DState) : DState :=
  { st with metrics := { st.metrics with
      RequestCounts := st.metrics.RequestCounts ++ ["total"] } }

/-- The tail of `HandleDNSRequest`: the empty-Answer/non-empty-Ns
NXDOMAIN rewrite, then `sendResponse`. -/
def respondTail (env : Env) (st : DState) (resp : Msg) : DState :=
  let resp1 := if resp.Answer.length = 0 ∧ resp.Ns.length > 0 then
    { resp with Rcode := RcodeNameError } else resp
  finishRequest (sendResponse env.writeOk st resp1)

/-- `HandleDNSRequest`.  Start-time capture, client-IP parsing and
`updateClientCount` touch only elided observability state.  `SetReply`
initialises the reply (id, NOERROR, question echoed). -/
def HandleDNSRequest (env : Env) (st : DState) (req : Msg) : DState :=
  let resp : Msg :=
    { Id := req.Id, Rcode := RcodeSuccess,
      RecursionDesired := req.RecursionDesired,
      Question := req.Question, Answer := [], Ns := [] }
  match questionLoop env st req.Question [] [] with
  | (st1, .error _) =>
    finishRequest (sendResponse env.writeOk st1 { resp with Rcode := RcodeServerFailure })
  | (st1, .ok (answers, unanswered)) =>
    let resp1 : Msg := { resp with Answer := resp.Answer ++ answers }
    if unanswered.length > 0 then
      match resolveUpstream env st1 unanswered req with
      | (st2, (rcode, _, some _)) =>
        finishRequest (sendResponse env.writeOk (reportError st2 "upstream")
          { resp1 with Rcode := rcode })
      | (st2, (_, upstreamAnswers, none)) =>
        respondTail env st2 { resp1 with Answer := resp1.Answer ++ upstreamAnswers }
    else
      respondTail env st1 resp1

/-! ## Space-Saving tracker (`internal/metrics/space_saver.go`)

The Go `map[string]*SpaceSaverEntry` is embedded as an association
list with pairwise-distinct keys (insertion order standing in for Go's
unspecified map iteration order); the mutex serialising `Add`/`TopN`
is elided, matching the claims' sequential call sequences.  Counts and
errors are Go `int`s that never go negative, embedded as `Nat`. -/

structure SpaceSaverEntry where
  Key : String
  Count : Nat
  Error : Nat
deriving DecidableEq, Repr

structure SpaceSaver where
  k : Nat
  entries : List SpaceSaverEntry
  /-- cached key with minimum Count; `""` when unknown -/
  minKey : String
deriving DecidableEq, Repr

/-- `NewSpaceSaver`. -/
def NewSpaceSaver (k : Nat) : SpaceSaver :=
  { k := k, entries := [], minKey := "" }

/-- The Go map read `s.entries[key]`. -/
def SpaceSaver.findEntry (es : List SpaceSaverEntry) (key : String) :
    Option SpaceSaverEntry :=
  es.find? (fun e => e.Key = key)

/-- `recomputeMinLocked`: scan all entries keeping the first entry of
strictly smallest count (Go scans in map order; list order here). -/
def SpaceSaver.minScan : List SpaceSaverEntry → Option SpaceSaverEntry
  | [] => none
  | e :: es =>
    match SpaceSaver.minScan es with
    | none => some e
    | some m => if m.Count < e.Count then some m else some e

def SpaceSaver.recomputeMin (es : List SpaceSaverEntry) : String :=
  match SpaceSaver.minScan es with
  | none => ""
  | some e => e.Key

/-- `Add`.  Case 1: tracked key → increment, recompute the cached min
if the key was the min.  Case 2: room → insert `(count 1, error 0)`,
refresh the cached min.  Case 3: full → evict the cached-min entry
(revalidated first) and insert with `count = min.Count + 1`,
`error = min.Count`, then recompute the min.  A nil cached-min entry
(reachable only with `k = 0`) would dereference nil in Go; embedded as
an unchanged tracker. -/
def SpaceSaver.Add (s : SpaceSaver) (key : String) : SpaceSaver :=
  match SpaceSaver.findEntry s.entries key with
  | some _ =>
    let es := s.entries.map (fun e =>
      if e.Key = key then { e with Count := e.Count + 1 } else e)
    let mk := if s.minKey = key then SpaceSaver.recomputeMin es else s.minKey
    { s with entries := es, minKey := mk }
  | none =>
    if s.entries.length < s.k then
      let es := s.entries ++ [{ Key := key, Count := 1, Error := 0 }]
      let mk :=
        match SpaceSaver.findEntry s.entries s.minKey with
        | none => key
        | some minEntry => if minEntry.Count > 1 then key else s.minKey
      { s with entries := es, minKey := mk }
    else
      let mk0 :=
        match SpaceSaver.findEntry s.entries s.minKey with
        | none => SpaceSaver.recomputeMin s.entries
        | some _ => s.minKey
      match SpaceSaver.findEntry s.entries mk0 with
      | none => s
      | some minEntry =>
        let es := (s.entries.filter (fun e => ¬ e.Key = mk0)) ++
          [{ Key := key, Count := minEntry.Count + 1, Error := minEntry.Count }]
        { s with entries := es, minKey := SpaceSaver.recomputeMin es }

/-- A sequence of sequential `Add` calls. -/
def SpaceSaver.runAdds (s : SpaceSaver) : List String → SpaceSaver
  | [] => s
  | key :: keys => (s.Add key).runAdds keys

/-- Insertion into a count-descending list (`sort.Slice`'s comparator
`all[i].Count > all[j].Count`). -/
def insertByCountDesc (e : SpaceSaverEntry) :
    List SpaceSaverEntry → List SpaceSaverEntry
  | [] => [e]
  | x :: xs =>
    if x.Count ≤ e.Count then e :: x :: xs else x :: insertByCountDesc e xs

/-- Count-descending sort. `sort.Slice` is an unstable in-place sort;
any count-descending order is a faithful embedding of it. -/
def sortByCountDesc : List SpaceSaverEntry → List SpaceSaverEntry
  | [] => []
  | x :: xs => insertByCountDesc x (sortByCountDesc xs)

/-- `TopN`: snapshot all entries, sort by count descending, truncate. -/
def SpaceSaver.TopN (s : SpaceSaver) (n : Nat) : List SpaceSaverEntry :=
  (sortByCountDesc s.entries).take n

/-- `newSpaceSaverStatsCallback` (`dns_metrics.go`): the downstream
metric map, one `(Key, Count - Error)` pair per `TopN topK` entry.
The subtraction is on Go `int`s, embedded as `Int`. -/
def newSpaceSaverStatsCallback (ss : SpaceSaver) (topK : Nat) :
    List (String × Int) :=
  (ss.TopN topK).map (fun entry => (entry.Key, (entry.Count : Int) - (entry.Error : Int)))

/-! ## Theorems -/

/-! ### C4 — the cache key is not case-folded -/

lemma string_append_cancel_right {a b t : String} (h : a ++ t = b ++ t) : a = b := by
  have hd : a.data ++ t.data = b.data ++ t.data := by
    have := congrArg String.data h
    simpa [String.data_append] using this
  have hab : a.data = b.data := List.append_cancel_right hd
  exact String.ext hab

/-- ASCII letters equal up to case. -/
def sameLetterModCase (a b : Char) : Bool :=
  a = b ∨ (a.toNat + 32 = b.toNat ∧ 65 ≤ a.toNat ∧ a.toNat ≤ 90) ∨
    (b.toNat + 32 = a.toNat ∧ 65 ≤ b.toNat ∧ b.toNat ≤ 90)

/-- Strings differing only in letter case. -/
def sameModCase (s t : String) : Bool :=
  s.data.length = t.data.length ∧
    (s.data.zip t.data).all (fun p => sameLetterModCase p.1 p.2)

/-- C4: counterexample — two questions whose names differ only in
letter case (`EXAMPLE.com.` vs `example.com.`, same type `A`) map to
different cache keys: `getCacheKey` applies no lowercasing. -/
theorem C4_counterexample :
    sameModCase "EXAMPLE.com." "example.com." = true ∧
    getCacheKey { name := "EXAMPLE.com.", qtype := TypeA } ≠
      getCacheKey { name := "example.com.", qtype := TypeA } := by
  constructor
  · decide
  · decide

/-- C4 (amended): the question fingerprint is the case-preserving FQDN
paired with the record-type name; for questions of equal type, the
cache keys agree exactly when the FQDNs are byte-equal — so queries
differing in letter case map to distinct keys. -/
theorem C4_amended (q1 q2 : Question) (ht : q1.qtype = q2.qtype) :
    getCacheKey q1 = getCacheKey q2 ↔ Fqdn q1.name = Fqdn q2.name := by
  constructor
  · intro h
    unfold getCacheKey getQueryType at h
    rw [ht] at h
    have h1 : Fqdn q1.name ++ (":" ++ TypeToString q2.qtype)
        = Fqdn q2.name ++ (":" ++ TypeToString q2.qtype) := by
      simpa [String.append_assoc] using h
    exact string_append_cancel_right h1
  · intro h
    unfold getCacheKey getQueryType
    rw [h, ht]

/-- C4 amended, witnessed at the concrete counterexample pair. -/
theorem C4_witness :
    (getCacheKey { name := "EXAMPLE.com.", qtype := TypeA } =
        getCacheKey { name := "example.com.", qtype := TypeA } ↔
      Fqdn "EXAMPLE.com." = Fqdn "example.com.") ∧
    Fqdn "EXAMPLE.com." ≠ Fqdn "example.com." :=
  ⟨C4_amended { name := "EXAMPLE.com.", qtype := TypeA }
      { name := "example.com.", qtype := TypeA } rfl,
    by decide⟩

/-! ### C10 — counter wrap drives the slice index to −1 -/

/-- `Int.tmod` on two `Nat` casts (both definitional equations of the
truncated mod). -/
lemma tmod_natCast (a b : Nat) :
    Int.tmod (a : Int) (b : Int) = ((a % b : Nat) : Int) := rfl

lemma tmod_negOne (b : Nat) :
    Int.tmod (-1) (b : Int) = -(((1 % b : Nat)) : Int) := rfl

/-- C10: with at least two upstreams, at the counter state `2^32 − 1`
the next call's `AddUint32` wraps to `n = 0`, the Go expression
`(int(n)-1) % len(upstreams)` evaluates to `-1`, and the slice access
`upstreams[-1]` is out of range (a runtime panic, `none` here). -/
theorem C10_wrap_panics (upstreams : List String) (h2 : 2 ≤ upstreams.length) :
    ((uint32Mod - 1) + 1) % uint32Mod = 0 ∧
    Int.tmod ((0 : Int) - 1) (upstreams.length : Int) = -1 ∧
    (RoundRobinClient.getNextUpstream { upstreams := upstreams, counter := uint32Mod - 1 }).2
      = none := by
  have hn : ((uint32Mod - 1) + 1) % uint32Mod = 0 := by
    have h : (uint32Mod - 1) + 1 = uint32Mod := by norm_num [uint32Mod]
    rw [h, Nat.mod_self]
  have htmod : Int.tmod ((0 : Int) - 1) (upstreams.length : Int) = -1 := by
    have h1 : ((0 : Int) - 1) = -1 := by norm_num
    rw [h1, tmod_negOne, Nat.mod_eq_of_lt (by omega)]
    norm_num
  refine ⟨hn, htmod, ?_⟩
  unfold RoundRobinClient.getNextUpstream
  simp only [hn, Nat.cast_zero]
  rw [if_neg (by omega)]
  rw [htmod]
  unfold goSliceGet
  rw [dif_neg]
  intro hcon
  omega

/-- C10, witnessed with two upstreams. -/
theorem C10_witness :
    ((uint32Mod - 1) + 1) % uint32Mod = 0 ∧
    Int.tmod ((0 : Int) - 1) ((["9.9.9.9:53", "8.8.8.8:53"] : List String).length : Int) = -1 ∧
    (RoundRobinClient.getNextUpstream
      { upstreams := ["9.9.9.9:53", "8.8.8.8:53"], counter := uint32Mod - 1 }).2 = none :=
  C10_wrap_panics ["9.9.9.9:53", "8.8.8.8:53"] (by decide)

/-! ### C3 — `IsBlocked` follows the spec's procedure -/

/-- Correspondence between the concrete PSL oracle (error strings, as
the Go library reports them) and the spec's abstract PSL outcome: the
"cannot derive eTLD+1" message prefix is exactly the
domain-is-its-own-public-suffix report. -/
def PslAgrees : Except String String → PslOutcome → Prop
  | .error e, .selfPublicSuffix => hasPrefixStr e pslCannotDerive = true
  | .error e, .failure e2 => e = e2 ∧ hasPrefixStr e pslCannotDerive = false
  | .ok a, .apex b => a = b
  | _, _ => False

/-- C3: `IsBlocked` follows the spec's procedure exactly — for every
input domain, under any membership test and any PSL oracle agreeing
with the spec's abstract PSL outcomes, the source control flow
(`IsBlockedWith`, from `blocklist.go`) and the spec procedure
(`isBlockedSpec`, §4.1) return the same verdict. -/
theorem C3_isBlocked_follows_spec (test : String → Bool) (psl : PslOracle)
    (pslSpec : String → PslOutcome)
    (hcorr : ∀ d, PslAgrees (psl d) (pslSpec d)) (fqdn : String) :
    IsBlockedWith test psl fqdn = isBlockedSpec test pslSpec fqdn := by
  unfold IsBlockedWith isBlockedSpec
  by_cases hb : test (cutSuffixDot fqdn) = true
  · simp [hb]
  · simp only [Bool.not_eq_true] at hb
    simp only [hb, Bool.false_eq_true, if_false]
    have h := hcorr (cutSuffixDot fqdn)
    cases hp : psl (cutSuffixDot fqdn) with
    | error e =>
      cases hs : pslSpec (cutSuffixDot fqdn) with
      | selfPublicSuffix =>
        rw [hp, hs] at h
        simp only [PslAgrees] at h
        simp [h]
      | failure e2 =>
        rw [hp, hs] at h
        simp only [PslAgrees] at h
        obtain ⟨rfl, hpre⟩ := h
        simp [hpre]
      | apex d =>
        rw [hp, hs] at h
        simp only [PslAgrees] at h
    | ok a =>
      cases hs : pslSpec (cutSuffixDot fqdn) with
      | selfPublicSuffix =>
        rw [hp, hs] at h
        simp only [PslAgrees] at h
      | failure e2 =>
        rw [hp, hs] at h
        simp only [PslAgrees] at h
      | apex b =>
        rw [hp, hs] at h
        simp only [PslAgrees] at h
        rw [h]

/-- A concrete PSL oracle fixture (error strings as the Go library
produces them). -/
def pslFixture : PslOracle := fun d =>
  if d = "s3.amazonaws.com" then
    .error "publicsuffix: cannot derive eTLD+1 for domain s3.amazonaws.com"
  else if d = "ads.tracker.doubleclick.net" then .ok "doubleclick.net"
  else .error "publicsuffix: invalid input"

/-- The same fixture in the spec's abstract outcomes. -/
def pslSpecFixture : String → PslOutcome := fun d =>
  if d = "s3.amazonaws.com" then .selfPublicSuffix
  else if d = "ads.tracker.doubleclick.net" then .apex "doubleclick.net"
  else .failure "publicsuffix: invalid input"

lemma pslFixture_agrees : ∀ d, PslAgrees (pslFixture d) (pslSpecFixture d) := by
  intro d
  unfold pslFixture pslSpecFixture
  by_cases h1 : d = "s3.amazonaws.com"
  · simp only [h1, if_pos rfl]
    show hasPrefixStr _ pslCannotDerive = true
    decide
  · by_cases h2 : d = "ads.tracker.doubleclick.net"
    · simp only [if_neg h1, h2, if_pos rfl]
      show ("doubleclick.net" : String) = "doubleclick.net"
      rfl
    · simp only [if_neg h1, if_neg h2]
      show _ ∧ _
      exact ⟨rfl, by decide⟩

/-- C3 witnessed on a blocked-via-eTLD+1 lookup (spec scenario 3). -/
theorem C3_witness :
    IsBlockedWith (fun d => d == "doubleclick.net") pslFixture "ads.tracker.doubleclick.net."
      = isBlockedSpec (fun d => d == "doubleclick.net") pslSpecFixture
          "ads.tracker.doubleclick.net." ∧
    IsBlockedWith (fun d => d == "doubleclick.net") pslFixture "ads.tracker.doubleclick.net."
      = .ok true :=
  ⟨C3_isBlocked_follows_spec (fun d => d == "doubleclick.net") pslFixture pslSpecFixture
      pslFixture_agrees "ads.tracker.doubleclick.net.",
    rfl⟩

/-! ### C9 — a failed refresh still replaces the blocklist -/

/-- C9: `BlocklistUpdater.Run` calls `Load` with the partially
accumulated item list even when the fetch failed (there is no early
return on error); refreshing with a failed, empty fetch therefore
replaces the live filter with an empty one, after which `IsBlocked`
can no longer answer `true` for any previously blocked domain. -/
theorem C9_failed_refresh_replaces_filter (bl : BlockList) (items : List String)
    (e : String) (psl : PslOracle) (d : String) :
    BlocklistUpdater.Run (items, some e) bl = bl.Load items ∧
    (BlocklistUpdater.Run ([], some e) bl).items = [] ∧
    (BlocklistUpdater.Run ([], some e) bl).IsBlocked psl d ≠ .ok true := by
  refine ⟨rfl, rfl, ?_⟩
  show (BlockList.IsBlocked { items := [] } psl d) ≠ .ok true
  unfold BlockList.IsBlocked IsBlockedWith BlockList.TestString
  simp only [List.contains_nil, Bool.false_eq_true, if_false]
  cases psl (cutSuffixDot d) with
  | error e2 =>
    by_cases hp : hasPrefixStr e2 pslCannotDerive = true
    · simp [hp]
    · simp only [Bool.not_eq_true] at hp
      simp [hp]
  | ok apexDomain => simp

/-! ### C8 — round-robin fairness -/

lemma getNextUpstream_no_wrap (ups : List String) (hN : 0 < ups.length)
    (c : Nat) (hc : c + 1 < uint32Mod) :
    RoundRobinClient.getNextUpstream { upstreams := ups, counter := c } =
      ({ upstreams := ups, counter := c + 1 },
        some (ups.get ⟨c % ups.length, Nat.mod_lt c hN⟩)) := by
  unfold RoundRobinClient.getNextUpstream
  have hn : (c + 1) % uint32Mod = c + 1 := Nat.mod_eq_of_lt hc
  simp only [hn]
  rw [if_neg (by omega)]
  have hcast : ((c + 1 : Nat) : Int) - 1 = ((c : Nat) : Int) := by push_cast; ring
  rw [hcast, tmod_natCast]
  unfold goSliceGet
  have htn : ((c % ups.length : Nat) : Int).toNat = c % ups.length := Int.toNat_natCast _
  rw [dif_pos ⟨Int.natCast_nonneg _, by rw [htn]; exact Nat.mod_lt c hN⟩]
  simp only [Int.toNat_natCast]

lemma runCalls_sel (ups : List String) (hN : 0 < ups.length) :
    ∀ (m c : Nat), c + m < uint32Mod →
      ((RoundRobinClient.mk ups c).runCalls m).2 =
        (List.range m).map
          (fun j => some (ups.get ⟨(c + j) % ups.length, Nat.mod_lt _ hN⟩)) := by
  intro m
  induction m with
  | zero =>
    intro c hc
    simp [RoundRobinClient.runCalls]
  | succ m ih =>
    intro c hc
    have ih1 := ih (c + 1) (by omega)
    rcases hrec : (RoundRobinClient.mk ups (c + 1)).runCalls m with ⟨r2, rest⟩
    rw [hrec] at ih1
    simp only at ih1
    simp only [RoundRobinClient.runCalls,
      getNextUpstream_no_wrap ups hN c (by omega), hrec]
    have htail : (List.range m).map
          (fun j => some (ups.get ⟨(c + 1 + j) % ups.length, Nat.mod_lt _ hN⟩))
        = (List.range m).map
          ((fun j => some (ups.get ⟨(c + j) % ups.length, Nat.mod_lt _ hN⟩)) ∘ Nat.succ) := by
      apply List.map_congr_left
      intro j hj
      simp only [Function.comp_apply]
      have hidx : c + 1 + j = c + Nat.succ j := by omega
      rw [hidx]
    rw [ih1, htail, List.range_succ_eq_map, List.map_cons, List.map_map]
    simp

lemma count_residue_in_range (N i : Nat) (hN : 0 < N) (hi : i < N) (m : Nat) :
    ((List.range m).filter (fun j => j % N = i)).length
      = m / N + if i < m % N then 1 else 0 := by
  have hkey := Nat.count_modEq_card m hN i
  have him : i % N = i := Nat.mod_eq_of_lt hi
  rw [him] at hkey
  rw [← hkey]
  unfold Nat.count
  rw [List.countP_eq_length_filter]
  congr 1
  apply List.filter_congr
  intro a _
  simp [Nat.ModEq, him]

lemma ceil_div_of_mod_ne_zero (m N : Nat) (hN : 0 < N) (hs : m % N ≠ 0) :
    (m + N - 1) / N = m / N + 1 := by
  have hlt : m % N < N := Nat.mod_lt m hN
  have hdm : N * (m / N) + m % N = m := Nat.div_add_mod m N
  have hmul : N * (m / N + 1) = N * (m / N) + N := by ring
  have hsplit : m + N - 1 = (m % N - 1) + N * (m / N + 1) := by omega
  rw [hsplit, Nat.add_mul_div_left _ _ hN, Nat.div_eq_of_lt (by omega)]
  omega

/-- C8: the round-robin client.  First conjunct: each call increments
the counter and selects `upstreams[(counter − 1) mod N]` (`counter`
being the post-increment value).  Second: over `m` sequential calls on
a fresh client, the `j`-th call selects `upstreams[j mod N]`.  Third:
each endpoint index `i < N` is selected either `⌊m/N⌋` or `⌈m/N⌉`
(= `(m+N−1)/N`) times. -/
theorem C8_round_robin (ups : List String) (hN : 0 < ups.length) (m : Nat)
    (hm : m < uint32Mod) :
    (∀ c : Nat, c + 1 < uint32Mod →
      RoundRobinClient.getNextUpstream { upstreams := ups, counter := c } =
        ({ upstreams := ups, counter := c + 1 },
          some (ups.get ⟨c % ups.length, Nat.mod_lt c hN⟩))) ∧
    (∀ j : Nat, j < m →
      (((RoundRobinClient.mk ups 0).runCalls m).2)[j]? =
        some (some (ups.get ⟨j % ups.length, Nat.mod_lt j hN⟩))) ∧
    (∀ i : Nat, i < ups.length →
      ((List.range m).filter (fun j => j % ups.length = i)).length = m / ups.length ∨
      ((List.range m).filter (fun j => j % ups.length = i)).length
        = (m + ups.length - 1) / ups.length) := by
  refine ⟨fun c hc => getNextUpstream_no_wrap ups hN c hc, ?_, ?_⟩
  · intro j hj
    rw [runCalls_sel ups hN m 0 (by omega)]
    rw [List.getElem?_map]
    rw [List.getElem?_range hj]
    simp
  · intro i hi
    rw [count_residue_in_range ups.length i hN hi m]
    by_cases hcase : i < m % ups.length
    · right
      rw [if_pos hcase]
      rw [ceil_div_of_mod_ne_zero m ups.length hN (by omega)]
    · left
      rw [if_neg hcase]
      omega

/-- C8 witnessed: seven calls against three upstreams; the fourth call
selects index `3 mod 3 = 0`, and endpoint 1 is hit `⌊7/3⌉ = 2` times. -/
theorem C8_witness :
    ((((RoundRobinClient.mk ["9.9.9.9:53", "8.8.8.8:53", "1.1.1.1:53"] 0).runCalls 7).2)[3]? =
      some (some "9.9.9.9:53")) ∧
    (((List.range 7).filter (fun j => j % 3 = 1)).length = 7 / 3 ∨
      ((List.range 7).filter (fun j => j % 3 = 1)).length = (7 + 3 - 1) / 3) := by
  have h := C8_round_robin ["9.9.9.9:53", "8.8.8.8:53", "1.1.1.1:53"] (by decide) 7 (by decide)
  refine ⟨?_, ?_⟩
  · have h2 := h.2.1 3 (by decide)
    simpa using h2
  · have h3 := h.2.2 1 (by decide)
    simpa using h3

/-! ### C6 — exactly one write per request -/

lemma reportError_frame (st : DState) (c : String) :
    (reportError st c).written = st.written ∧
    (reportError st c).cache = st.cache ∧
    (reportError st c).metrics.ErrorCounts = st.metrics.ErrorCounts ++ [c] :=
  ⟨rfl, rfl, rfl⟩

lemma sendResponse_effects (writeOk : Bool) (st : DState) (msg : Msg) :
    (sendResponse writeOk st msg).written = st.written ++ [msg] ∧
    (sendResponse writeOk st msg).cache = st.cache ∧
    (sendResponse writeOk st msg).metrics.ErrorCounts
      = st.metrics.ErrorCounts ++ (if writeOk then [] else ["response"]) := by
  unfold sendResponse
  cases writeOk with
  | true => exact ⟨rfl, rfl, by simp⟩
  | false => exact ⟨rfl, rfl, by simp [reportError]⟩

lemma processQuestion_frame (env : Env) (st : DState) (q : Question) :
    (processQuestion env st q).1.written = st.written ∧
    (processQuestion env st q).1.cache = st.cache ∧
    ∃ l : List String,
      (processQuestion env st q).1.metrics.ErrorCounts = st.metrics.ErrorCounts ++ l ∧
      ∀ x ∈ l, x = "blocklist" := by
  rcases h : env.blockList q.name with e | b
  · refine ⟨?_, ?_, ["blocklist"], ?_, fun x hx => by simpa using hx⟩ <;>
      simp [processQuestion, h, reportError]
  · rcases b with _ | _
    · rcases hcg : cacheGet st.cache (getCacheKey q) with _ | rrs
      · refine ⟨?_, ?_, [], ?_, by simp⟩ <;> simp [processQuestion, h, hcg]
      · refine ⟨?_, ?_, [], ?_, by simp⟩ <;> simp [processQuestion, h, hcg]
    · refine ⟨?_, ?_, [], ?_, by simp⟩ <;> simp [processQuestion, h]

lemma questionLoop_frame (env : Env) :
    ∀ (qs : List Question) (st : DState) (answers : List RR)
      (unanswered : List Question),
    (questionLoop env st qs answers unanswered).1.written = st.written ∧
    ∃ l : List String,
      (questionLoop env st qs answers unanswered).1.metrics.ErrorCounts
        = st.metrics.ErrorCounts ++ l ∧
      ∀ x ∈ l, x = "blocklist" := by
  intro qs
  induction qs with
  | nil =>
    intro st answers unanswered
    exact ⟨rfl, [], by simp [questionLoop], by simp⟩
  | cons q qs ih =>
    intro st answers unanswered
    obtain ⟨hw, hc, l1, hl1, hall1⟩ := processQuestion_frame env st q
    rcases hpq : processQuestion env st q with ⟨st1, res⟩
    rw [hpq] at hw hc hl1
    simp only at hw hc hl1
    cases res with
    | error e =>
      refine ⟨?_, ?_⟩
      · simp only [questionLoop, hpq]
        exact hw
      · refine ⟨l1, ?_, hall1⟩
        simp only [questionLoop, hpq]
        exact hl1
    | ok ans =>
      by_cases hlen : ans.length > 0
      · obtain ⟨hw2, l2, hl2, hall2⟩ := ih st1 (answers ++ ans) unanswered
        refine ⟨?_, l1 ++ l2, ?_, ?_⟩
        · simp only [questionLoop, hpq, if_pos hlen]
          rw [hw2, hw]
        · simp only [questionLoop, hpq, if_pos hlen]
          rw [hl2, hl1, List.append_assoc]
        · intro x hx
          rcases List.mem_append.mp hx with h | h
          · exact hall1 x h
          · exact hall2 x h
      · obtain ⟨hw2, l2, hl2, hall2⟩ := ih st1 answers (unanswered ++ [q])
        refine ⟨?_, l1 ++ l2, ?_, ?_⟩
        · simp only [questionLoop, hpq, if_neg hlen]
          rw [hw2, hw]
        · simp only [questionLoop, hpq, if_neg hlen]
          rw [hl2, hl1, List.append_assoc]
        · intro x hx
          rcases List.mem_append.mp hx with h | h
          · exact hall1 x h
          · exact hall2 x h

lemma cacheUpstreamAnswers_frame (ans : List RR) :
    ∀ (qs : List Question) (st : DState),
    (cacheUpstreamAnswers ans st qs).written = st.written ∧
    (cacheUpstreamAnswers ans st qs).metrics.ErrorCounts = st.metrics.ErrorCounts := by
  intro qs
  induction qs with
  | nil => intro st; exact ⟨rfl, rfl⟩
  | cons q qs ih =>
    intro st
    rcases hf : ans.filter
        (fun a => Fqdn a.Header.Name ++ ":" ++ TypeToString a.Header.Rrtype = getCacheKey q)
      with _ | ⟨a0, rest⟩
    · simp only [cacheUpstreamAnswers, hf]
      exact ih st
    · simp only [cacheUpstreamAnswers, hf]
      obtain ⟨h1, h2⟩ := ih
        { st with
          cache := cacheSet st.cache (getCacheKey q) (a0 :: rest),
          metrics := { st.metrics with
            UpstreamTTLs := st.metrics.UpstreamTTLs ++ [(getQueryType q, a0.Header.Ttl)] } }
      exact ⟨h1, h2⟩

lemma resolveUpstream_frame (env : Env) (st : DState) (qs : List Question) (req : Msg) :
    (resolveUpstream env st qs req).1.written = st.written ∧
    (resolveUpstream env st qs req).1.metrics.ErrorCounts = st.metrics.ErrorCounts := by
  rcases hu : env.upstream
      { Id := env.freshId, Rcode := RcodeSuccess, RecursionDesired := req.RecursionDesired,
        Question := qs, Answer := [], Ns := [] } with _ | uresp
  · constructor <;> simp [resolveUpstream, hu]
  · by_cases hrc : uresp.Rcode ≠ RcodeSuccess
    · constructor <;> simp [resolveUpstream, hu, hrc]
    · obtain ⟨h1, h2⟩ := cacheUpstreamAnswers_frame uresp.Answer qs
        { st with metrics := { st.metrics with
            RequestCounts := st.metrics.RequestCounts ++ ["forwarded"] } }
      constructor <;> simp [resolveUpstream, hu, hrc, h1, h2]

lemma count_append_all_ne (l : List String) (a : String)
    (h : ∀ x ∈ l, x ≠ a) (base : List String) :
    (base ++ l).count a = base.count a := by
  rw [List.count_append]
  have : l.count a = 0 := by
    rw [List.count_eq_zero]
    intro hmem
    exact h a hmem rfl
  omega

/-- Counting helper for the `sendResponse`/`finishRequest` tail shared
by every exit path of `HandleDNSRequest`. -/
lemma tail_write_effects (env : Env) (st0 : DState) (msg : Msg) :
    (finishRequest (sendResponse env.writeOk st0 msg)).written = st0.written ++ [msg] ∧
    (finishRequest (sendResponse env.writeOk st0 msg)).metrics.ErrorCounts.count "response"
      = st0.metrics.ErrorCounts.count "response" + (if env.writeOk then 0 else 1) := by
  obtain ⟨hw, _, hec⟩ := sendResponse_effects env.writeOk st0 msg
  refine ⟨hw, ?_⟩
  show (sendResponse env.writeOk st0 msg).metrics.ErrorCounts.count "response" = _
  rw [hec, List.count_append]
  cases henv : env.writeOk <;> simp

/-- C6: `HandleDNSRequest` performs exactly one `WriteMsg` on every
control path (blocklist error, upstream transport error, upstream
non-NOERROR rcode, and the normal path), and a failed write is
reported under `category="response"` exactly once — never retried. -/
theorem C6_exactly_one_write (env : Env) (st : DState) (req : Msg) :
    (HandleDNSRequest env st req).written.length = st.written.length + 1 ∧
    (HandleDNSRequest env st req).metrics.ErrorCounts.count "response"
      = st.metrics.ErrorCounts.count "response" + (if env.writeOk then 0 else 1) := by
  obtain ⟨hlw, l1, hlec, hall1⟩ := questionLoop_frame env req.Question st [] []
  unfold HandleDNSRequest
  rcases hloop : questionLoop env st req.Question [] [] with ⟨st1, res⟩
  rw [hloop] at hlw hlec
  simp only at hlw hlec
  have hcount1 : st1.metrics.ErrorCounts.count "response"
      = st.metrics.ErrorCounts.count "response" := by
    rw [hlec]
    exact count_append_all_ne l1 "response"
      (fun x hx => by rw [hall1 x hx]; decide) _
  cases res with
  | error e =>
    obtain ⟨hw, hc⟩ := tail_write_effects env st1 _
    simp only
    rw [hw, hc, hcount1, hlw, List.length_append]
    simp
  | ok pair =>
    rcases pair with ⟨answers, unanswered⟩
    simp only
    by_cases hlen : unanswered.length > 0
    · rw [if_pos hlen]
      obtain ⟨hrw, hrec⟩ := resolveUpstream_frame env st1 unanswered req
      rcases hres : resolveUpstream env st1 unanswered req with ⟨st2, rcode, ans2, errOpt⟩
      rw [hres] at hrw hrec
      simp only at hrw hrec
      cases errOpt with
      | some err =>
        simp only
        obtain ⟨hw, hc⟩ := tail_write_effects env (reportError st2 "upstream") _
        rw [hw, hc]
        obtain ⟨hw3, _, hec3⟩ := reportError_frame st2 "upstream"
        rw [hw3, hrw, hlw, List.length_append, hec3]
        constructor
        · simp
        · rw [count_append_all_ne ["upstream"] "response" (by decide) _,
            hrec, hcount1]
      | none =>
        simp only
        unfold respondTail
        obtain ⟨hw, hc⟩ := tail_write_effects env st2 _
        rw [hw, hc, hrw, hlw, List.length_append, hrec, hcount1]
        simp
    · rw [if_neg hlen]
      unfold respondTail
      obtain ⟨hw, hc⟩ := tail_write_effects env st1 _
      rw [hw, hc, hlw, List.length_append, hcount1]
      simp

/-! ### C1 — upstream non-NOERROR rcode path, and C2 — blocked SOA -/

/-- The question loop when every question is neither blocked nor
cached: all questions end up unanswered, and the cache, written log
and error counter are untouched. -/
lemma questionLoop_all_miss (env : Env) :
    ∀ (qs : List Question) (st : DState) (answers : List RR)
      (unanswered : List Question),
    (∀ q ∈ qs, env.blockList q.name = .ok false) →
    (∀ q ∈ qs, cacheGet st.cache (getCacheKey q) = none) →
    ∃ st1, questionLoop env st qs answers unanswered
        = (st1, .ok (answers, unanswered ++ qs)) ∧
      st1.cache = st.cache ∧ st1.written = st.written ∧
      st1.metrics.ErrorCounts = st.metrics.ErrorCounts := by
  intro qs
  induction qs with
  | nil =>
    intro st answers unanswered _ _
    exact ⟨st, by simp [questionLoop], rfl, rfl, rfl⟩
  | cons q qs ih =>
    intro st answers unanswered hbl hcg
    have hq : env.blockList q.name = .ok false := hbl q (by simp)
    have hcq : cacheGet st.cache (getCacheKey q) = none := hcg q (by simp)
    have hpq : processQuestion env st q
        = ({ st with metrics := { st.metrics with
              TopDomains := st.metrics.TopDomains ++ [q.name],
              QueryCounts := st.metrics.QueryCounts ++ [(getQueryType q, "false")] } },
           .ok []) := by
      simp [processQuestion, hq, hcq]
    obtain ⟨st1, heq, hc1, hw1, he1⟩ := ih
      { st with metrics := { st.metrics with
          TopDomains := st.metrics.TopDomains ++ [q.name],
          QueryCounts := st.metrics.QueryCounts ++ [(getQueryType q, "false")] } }
      answers (unanswered ++ [q])
      (fun p hp => hbl p (by simp [hp]))
      (fun p hp => hcg p (by simp [hp]))
    refine ⟨st1, ?_, hc1, hw1, he1⟩
    simp only [questionLoop, hpq]
    rw [if_neg (by simp)]
    rw [heq]
    simp

/-- The question loop when every question is blocked: each question
contributes exactly its synthesised SOA, in question order. -/
lemma questionLoop_all_blocked (env : Env) :
    ∀ (qs : List Question) (st : DState) (answers : List RR)
      (unanswered : List Question),
    (∀ q ∈ qs, env.blockList q.name = .ok true) →
    ∃ st1, questionLoop env st qs answers unanswered
        = (st1, .ok (answers ++ qs.map (fun q => blockedSOA q.name), unanswered)) ∧
      st1.written = st.written ∧ st1.metrics.ErrorCounts = st.metrics.ErrorCounts := by
  intro qs
  induction qs with
  | nil =>
    intro st answers unanswered _
    exact ⟨st, by simp [questionLoop], rfl, rfl⟩
  | cons q qs ih =>
    intro st answers unanswered hbl
    have hq : env.blockList q.name = .ok true := hbl q (by simp)
    have hpq : processQuestion env st q
        = ({ st with metrics := { st.metrics with
              TopDomains := st.metrics.TopDomains ++ [q.name],
              QueryCounts := st.metrics.QueryCounts ++ [(getQueryType q, "true")] } },
           .ok [blockedSOA q.name]) := by
      simp [processQuestion, hq]
    obtain ⟨st1, heq, hw1, he1⟩ := ih
      { st with metrics := { st.metrics with
          TopDomains := st.metrics.TopDomains ++ [q.name],
          QueryCounts := st.metrics.QueryCounts ++ [(getQueryType q, "true")] } }
      (answers ++ [blockedSOA q.name]) unanswered
      (fun p hp => hbl p (by simp [hp]))
    refine ⟨st1, ?_, hw1, he1⟩
    simp only [questionLoop, hpq]
    rw [if_pos (by simp)]
    rw [heq]
    simp

/-- C2: a blocked question synthesises exactly one SOA — owner the
queried name, class IN, TTL 300, MNAME `ns.blocked.local.`, RNAME
`hostmaster.blocked.local.`, SERIAL 1, REFRESH 3600, RETRY 900,
EXPIRE 604800, MINIMUM 300 — and a request whose questions are all
blocked is answered with one such SOA per question appended to the
reply's Answer section (the Authority section stays empty) while the
rcode remains NOERROR. -/
theorem C2_blocked_soa (env : Env) (st : DState) (q : Question) (req : Msg)
    (hq : env.blockList q.name = .ok true)
    (hall : ∀ p ∈ req.Question, env.blockList p.name = .ok true)
    (hw : env.writeOk = true) :
    blockedSOA q.name = RR.soa
        { Name := q.name, Rrtype := TypeSOA, Class := ClassINET, Ttl := 300 }
        "ns.blocked.local." "hostmaster.blocked.local." 1 3600 900 604800 300 ∧
    (processQuestion env st q).2 = .ok [blockedSOA q.name] ∧
    ∃ resp, (HandleDNSRequest env st req).written = st.written ++ [resp] ∧
      resp.Answer = req.Question.map (fun p => blockedSOA p.name) ∧
      resp.Rcode = RcodeSuccess ∧ resp.Ns = [] := by
  refine ⟨rfl, by simp [processQuestion, hq], ?_⟩
  obtain ⟨st1, heq, hw1, he1⟩ :=
    questionLoop_all_blocked env req.Question st [] [] hall
  refine ⟨{ Id := req.Id, Rcode := RcodeSuccess,
            RecursionDesired := req.RecursionDesired, Question := req.Question,
            Answer := req.Question.map (fun p => blockedSOA p.name), Ns := [] },
    ?_, rfl, rfl, rfl⟩
  unfold HandleDNSRequest
  rw [heq]
  simp only
  rw [if_neg (by simp)]
  unfold respondTail
  rw [if_neg (by simp)]
  obtain ⟨hws, _, _⟩ := sendResponse_effects env.writeOk st1 _
  rw [show (finishRequest (sendResponse env.writeOk st1 _)).written
      = (sendResponse env.writeOk st1 _).written from rfl, hws, hw1]
  simp

/-- Environment fixture: nothing blocked, upstream answers `REFUSED`,
writes succeed. -/
def envRefused : Env :=
  { blockList := fun _ => .ok false,
    upstream := fun m => some { m with Rcode := RcodeRefused },
    writeOk := true, freshId := 42 }

/-- Empty dispatcher state. -/
def dstate0 : DState :=
  { cache := [],
    metrics := { ErrorCounts := [], RequestCounts := [], QueryCounts := [],
                 ReplyCounts := [], TopDomains := [], UpstreamTTLs := [] },
    written := [] }

/-- A one-question `A example.com.` request. -/
def reqExample : Msg :=
  { Id := 7, Rcode := RcodeSuccess, RecursionDesired := true,
    Question := [{ name := "example.com.", qtype := TypeA }], Answer := [], Ns := [] }

/-- C1: counterexample — on the upstream non-NOERROR path (upstream
returns `REFUSED`) the rcode is echoed and nothing is cached, but
`dns_error_count{category="upstream"}` is NOT unchanged:
`resolveUpstream` returns a non-nil error for a non-NOERROR rcode, so
`HandleDNSRequest` calls `reportError("upstream", err)`. -/
theorem C1_counterexample :
    ((HandleDNSRequest envRefused dstate0 reqExample).written.map Msg.Rcode
      = [RcodeRefused]) ∧
    (HandleDNSRequest envRefused dstate0 reqExample).cache = [] ∧
    ¬ ((HandleDNSRequest envRefused dstate0 reqExample).metrics.ErrorCounts.count "upstream"
        = dstate0.metrics.ErrorCounts.count "upstream") := by
  refine ⟨?_, ?_, ?_⟩ <;> decide

/-- C1 (amended): when the upstream reply's rcode is not NOERROR,
`HandleDNSRequest` echoes that rcode in its single reply and writes
nothing to the cache, but it DOES increment the error counter: exactly
one `dns_error_count{category="upstream"}` increment is made on this
path. -/
theorem C1_amended (env : Env) (st : DState) (req : Msg) (rc : Nat)
    (hq : req.Question ≠ [])
    (hbl : ∀ q ∈ req.Question, env.blockList q.name = .ok false)
    (hcm : ∀ q ∈ req.Question, cacheGet st.cache (getCacheKey q) = none)
    (hup : ∀ m : Msg, (env.upstream m).map Msg.Rcode = some rc)
    (hrc : rc ≠ RcodeSuccess)
    (hw : env.writeOk = true) :
    ∃ resp, (HandleDNSRequest env st req).written = st.written ++ [resp] ∧
      resp.Rcode = rc ∧
      (HandleDNSRequest env st req).cache = st.cache ∧
      (HandleDNSRequest env st req).metrics.ErrorCounts
        = st.metrics.ErrorCounts ++ ["upstream"] := by
  obtain ⟨st1, heq, hc1, hw1, he1⟩ :=
    questionLoop_all_miss env req.Question st [] [] hbl hcm
  simp only [List.nil_append] at heq
  have hupq := hup
    { Id := env.freshId, Rcode := RcodeSuccess,
      RecursionDesired := req.RecursionDesired,
      Question := req.Question, Answer := [], Ns := [] }
  rcases hu : env.upstream
      { Id := env.freshId, Rcode := RcodeSuccess,
        RecursionDesired := req.RecursionDesired,
        Question := req.Question, Answer := [], Ns := [] } with _ | uresp
  · rw [hu] at hupq
    simp at hupq
  · rw [hu] at hupq
    have hurc : uresp.Rcode = rc := by
      simpa using hupq
    have hres : resolveUpstream env st1 req.Question req
        = ({ st1 with metrics := { st1.metrics with
              RequestCounts := st1.metrics.RequestCounts ++ ["forwarded"] } },
           (rc, [],
            some ("resolver returned a non-success Rcode: " ++ RcodeToString rc))) := by
      simp [resolveUpstream, hu, hurc, hrc]
    refine ⟨{ Id := req.Id, Rcode := rc, RecursionDesired := req.RecursionDesired,
              Question := req.Question, Answer := [], Ns := [] }, ?_, rfl, ?_, ?_⟩
    · unfold HandleDNSRequest
      rw [heq]
      simp only
      rw [if_pos (by simpa [List.length_pos] using hq), hres]
      simp only
      obtain ⟨hws, _, _⟩ := sendResponse_effects env.writeOk _ _
      rw [show ∀ s m, (finishRequest (sendResponse env.writeOk s m)).written
          = (sendResponse env.writeOk s m).written from fun s m => rfl, hws]
      simp only [reportError]
      simp [hw1]
    · unfold HandleDNSRequest
      rw [heq]
      simp only
      rw [if_pos (by simpa [List.length_pos] using hq), hres]
      simp only
      obtain ⟨_, hcs, _⟩ := sendResponse_effects env.writeOk _ _
      rw [show ∀ s m, (finishRequest (sendResponse env.writeOk s m)).cache
          = (sendResponse env.writeOk s m).cache from fun s m => rfl, hcs]
      simp only [reportError]
      simp [hc1]
    · unfold HandleDNSRequest
      rw [heq]
      simp only
      rw [if_pos (by simpa [List.length_pos] using hq), hres]
      simp only
      obtain ⟨_, _, hes⟩ := sendResponse_effects env.writeOk _ _
      rw [show ∀ s m, (finishRequest (sendResponse env.writeOk s m)).metrics.ErrorCounts
          = (sendResponse env.writeOk s m).metrics.ErrorCounts from fun s m => rfl, hes]
      simp only [reportError]
      simp [he1, hw]

/-- C1 amended, witnessed at the `REFUSED` fixture. -/
theorem C1_witness :
    ∃ resp, (HandleDNSRequest envRefused dstate0 reqExample).written
        = dstate0.written ++ [resp] ∧
      resp.Rcode = RcodeRefused ∧
      (HandleDNSRequest envRefused dstate0 reqExample).cache = dstate0.cache ∧
      (HandleDNSRequest envRefused dstate0 reqExample).metrics.ErrorCounts
        = dstate0.metrics.ErrorCounts ++ ["upstream"] :=
  C1_amended envRefused dstate0 reqExample RcodeRefused (by decide)
    (fun q _ => rfl) (fun q _ => rfl) (fun m => rfl) (by decide) rfl

/-- Environment fixture: everything blocked. -/
def envBlocked : Env :=
  { blockList := fun _ => .ok true, upstream := fun _ => none,
    writeOk := true, freshId := 42 }

/-- A one-question `A ads.0xbt.net.` request. -/
def reqBlocked : Msg :=
  { Id := 9, Rcode := RcodeSuccess, RecursionDesired := true,
    Question := [{ name := "ads.0xbt.net.", qtype := TypeA }], Answer := [], Ns := [] }

/-- C2 witnessed at the blocked fixture (spec scenario 2). -/
theorem C2_witness :
    blockedSOA "ads.0xbt.net." = RR.soa
        { Name := "ads.0xbt.net.", Rrtype := TypeSOA, Class := ClassINET, Ttl := 300 }
        "ns.blocked.local." "hostmaster.blocked.local." 1 3600 900 604800 300 ∧
    (processQuestion envBlocked dstate0 { name := "ads.0xbt.net.", qtype := TypeA }).2
      = .ok [blockedSOA "ads.0xbt.net."] ∧
    ∃ resp, (HandleDNSRequest envBlocked dstate0 reqBlocked).written
        = dstate0.written ++ [resp] ∧
      resp.Answer = reqBlocked.Question.map (fun p => blockedSOA p.name) ∧
      resp.Rcode = RcodeSuccess ∧ resp.Ns = [] :=
  C2_blocked_soa envBlocked dstate0 { name := "ads.0xbt.net.", qtype := TypeA }
    reqBlocked rfl (fun p _ => rfl) rfl

/-! ### C5 — Space-Saving invariants -/

def keysOf (es : List SpaceSaverEntry) : List String := es.map (·.Key)

/-- The inductive invariant of the Space-Saving tracker after the call
sequence `adds` on a fresh tracker of capacity `k`: the tracked keys
are distinct; the size is `min k (#distinct adds)`; every tracked
entry brackets its true frequency (`count − error ≤ freq ≤ count`,
with `error + 1 ≤ count`); untracked keys have frequency 0 while there
is room, and frequency at most every tracked count once full; and the
cached `minKey` names a tracked entry of minimal count. -/
structure SSInv (k : Nat) (adds : List String) (s : SpaceSaver) : Prop where
  hk : s.k = k
  nodup : (keysOf s.entries).Nodup
  size : s.entries.length = min k adds.toFinset.card
  errlt : ∀ e ∈ s.entries, e.Error + 1 ≤ e.Count
  over : ∀ e ∈ s.entries, adds.count e.Key ≤ e.Count
  under : ∀ e ∈ s.entries, e.Count ≤ e.Error + adds.count e.Key
  miss0 : s.entries.length < k → ∀ key, key ∉ keysOf s.entries → adds.count key = 0
  missle : s.entries.length = k → ∀ key, key ∉ keysOf s.entries →
    ∀ e ∈ s.entries, adds.count key ≤ e.Count
  mincache : s.entries ≠ [] → ∃ me ∈ s.entries, s.minKey = me.Key ∧
    ∀ e ∈ s.entries, me.Count ≤ e.Count

lemma minScan_spec : ∀ (es : List SpaceSaverEntry), es ≠ [] →
    ∃ m, SpaceSaver.minScan es = some m ∧ m ∈ es ∧ ∀ e ∈ es, m.Count ≤ e.Count := by
  intro es
  induction es with
  | nil => intro h; exact absurd rfl h
  | cons e es ih =>
    intro _
    cases hes : es with
    | nil =>
      refine ⟨e, ?_, by simp, ?_⟩
      · simp [SpaceSaver.minScan]
      · intro x hx
        simp at hx
        rw [hx]
    | cons e2 es2 =>
      obtain ⟨m, hm, hmem, hmin⟩ := ih (by simp [hes])
      rw [← hes] at *
      by_cases hlt : m.Count < e.Count
      · refine ⟨m, ?_, by simp [hmem], ?_⟩
        · simp [SpaceSaver.minScan, hm, hlt]
        · intro x hx
          rcases List.mem_cons.mp hx with rfl | hx2
          · omega
          · exact hmin x hx2
      · refine ⟨e, ?_, by simp, ?_⟩
        · simp [SpaceSaver.minScan, hm, hlt]
        · intro x hx
          rcases List.mem_cons.mp hx with rfl | hx2
          · omega
          · have := hmin x hx2
            omega

lemma recomputeMin_spec (es : List SpaceSaverEntry) (h : es ≠ []) :
    ∃ m ∈ es, SpaceSaver.recomputeMin es = m.Key ∧ ∀ e ∈ es, m.Count ≤ e.Count := by
  obtain ⟨m, hm, hmem, hmin⟩ := minScan_spec es h
  exact ⟨m, hmem, by simp [SpaceSaver.recomputeMin, hm], hmin⟩

lemma findEntry_some {es : List SpaceSaverEntry} {key : String} {e : SpaceSaverEntry}
    (h : SpaceSaver.findEntry es key = some e) : e ∈ es ∧ e.Key = key := by
  unfold SpaceSaver.findEntry at h
  refine ⟨List.mem_of_find?_eq_some h, ?_⟩
  have := List.find?_some h
  simpa using this

lemma findEntry_none {es : List SpaceSaverEntry} {key : String}
    (h : SpaceSaver.findEntry es key = none) : ∀ e ∈ es, e.Key ≠ key := by
  unfold SpaceSaver.findEntry at h
  intro e he
  have := List.find?_eq_none.mp h e he
  simpa using this

lemma nodup_key_inj {es : List SpaceSaverEntry} (hn : (keysOf es).Nodup)
    {e1 e2 : SpaceSaverEntry} (h1 : e1 ∈ es) (h2 : e2 ∈ es)
    (hkey : e1.Key = e2.Key) : e1 = e2 :=
  List.inj_on_of_nodup_map hn h1 h2 hkey

lemma findEntry_of_mem {es : List SpaceSaverEntry} (hn : (keysOf es).Nodup)
    {me : SpaceSaverEntry} (hmem : me ∈ es) :
    SpaceSaver.findEntry es me.Key = some me := by
  have hsome : (SpaceSaver.findEntry es me.Key).isSome := by
    unfold SpaceSaver.findEntry
    rw [List.find?_isSome]
    exact ⟨me, hmem, by simp⟩
  rcases hfe : SpaceSaver.findEntry es me.Key with _ | e'
  · rw [hfe] at hsome; simp at hsome
  · obtain ⟨hmem2, hkey2⟩ := findEntry_some hfe
    rw [nodup_key_inj hn hmem2 hmem hkey2]

lemma count_app_single (adds : List String) (y x : String) :
    (adds ++ [y]).count x = adds.count x + if y = x then 1 else 0 := by
  rw [List.count_append]
  by_cases h : y = x
  · subst h; simp
  · rw [if_neg h]
    have : x ∉ [y] := by simp [Ne.symm h]
    rw [List.count_eq_zero.mpr this]

lemma card_app_mem {adds : List String} {y : String} (h : y ∈ adds) :
    (adds ++ [y]).toFinset.card = adds.toFinset.card := by
  have : (adds ++ [y]).toFinset = adds.toFinset := by
    simp [List.toFinset_append, Finset.union_eq_left, h]
  rw [this]

lemma card_app_not_mem {adds : List String} {y : String} (h : y ∉ adds) :
    (adds ++ [y]).toFinset.card = adds.toFinset.card + 1 := by
  have h1 : (adds ++ [y]).toFinset = insert y adds.toFinset := by
    simp [List.toFinset_append]
    rw [Finset.union_comm, ← Finset.insert_eq]
  rw [h1, Finset.card_insert_of_not_mem (by simpa using h)]

/-- The per-entry update of `Add`'s tracked-key case. -/
def bump (y : String) (e : SpaceSaverEntry) : SpaceSaverEntry :=
  if e.Key = y then { e with Count := e.Count + 1 } else e

lemma bump_key (y : String) (e : SpaceSaverEntry) : (bump y e).Key = e.Key := by
  unfold bump; by_cases h : e.Key = y <;> simp [h]

lemma bump_count_ge (y : String) (e : SpaceSaverEntry) : e.Count ≤ (bump y e).Count := by
  unfold bump; by_cases h : e.Key = y <;> simp [h]

lemma bump_error (y : String) (e : SpaceSaverEntry) : (bump y e).Error = e.Error := by
  unfold bump; by_cases h : e.Key = y <;> simp [h]

lemma bump_of_ne {y : String} {e : SpaceSaverEntry} (h : e.Key ≠ y) : bump y e = e := by
  unfold bump; simp [h]

lemma bump_of_eq {y : String} {e : SpaceSaverEntry} (h : e.Key = y) :
    bump y e = { e with Count := e.Count + 1 } := by
  unfold bump; simp [h]

lemma keysOf_map_bump (y : String) (es : List SpaceSaverEntry) :
    keysOf (es.map (bump y)) = keysOf es := by
  unfold keysOf
  rw [List.map_map]
  apply List.map_congr_left
  intro e _
  exact bump_key y e

lemma mem_keysOf {es : List SpaceSaverEntry} {key : String} :
    key ∈ keysOf es ↔ ∃ e ∈ es, e.Key = key := by
  unfold keysOf
  simp [List.mem_map]

lemma step_tracked {k : Nat} {adds : List String} {s : SpaceSaver}
    (inv : SSInv k adds s) {y : String} {e0 : SpaceSaverEntry}
    (hfind : SpaceSaver.findEntry s.entries y = some e0) :
    SSInv k (adds ++ [y]) (s.Add y) := by
  obtain ⟨he0mem, he0key⟩ := findEntry_some hfind
  have hadd : s.Add y = { s with
      entries := s.entries.map (bump y),
      minKey := if s.minKey = y
        then SpaceSaver.recomputeMin (s.entries.map (bump y))
        else s.minKey } := by
    simp only [SpaceSaver.Add, hfind]
    rfl
  have hne : s.entries ≠ [] := by
    intro h; rw [h] at he0mem; simp at he0mem
  have hyadds : y ∈ adds := by
    have h1 := inv.errlt e0 he0mem
    have h2 := inv.under e0 he0mem
    rw [he0key] at h2
    have : 1 ≤ adds.count y := by omega
    exact List.count_pos_iff.mp (by omega)
  have hykeys : y ∈ keysOf s.entries := mem_keysOf.mpr ⟨e0, he0mem, he0key⟩
  rw [hadd]
  refine ⟨inv.hk, ?_, ?_, ?_, ?_, ?_, ?_, ?_, ?_⟩
  · show (keysOf (s.entries.map (bump y))).Nodup
    rw [keysOf_map_bump]
    exact inv.nodup
  · show (s.entries.map (bump y)).length = _
    rw [List.length_map, card_app_mem hyadds]
    exact inv.size
  · intro e' he'
    obtain ⟨e, he, rfl⟩ := List.mem_map.mp he'
    have := inv.errlt e he
    have hc := bump_count_ge y e
    have herr := bump_error y e
    omega
  · intro e' he'
    obtain ⟨e, he, rfl⟩ := List.mem_map.mp he'
    rw [bump_key, count_app_single]
    by_cases hk1 : e.Key = y
    · rw [if_pos hk1.symm, bump_of_eq hk1]
      have := inv.over e he
      simpa using by omega
    · rw [if_neg (fun h => hk1 h.symm), bump_of_ne hk1]
      simpa using inv.over e he
  · intro e' he'
    obtain ⟨e, he, rfl⟩ := List.mem_map.mp he'
    rw [bump_key, bump_error, count_app_single]
    by_cases hk1 : e.Key = y
    · rw [if_pos hk1.symm, bump_of_eq hk1]
      have := inv.under e he
      simpa using by omega
    · rw [if_neg (fun h => hk1 h.symm), bump_of_ne hk1]
      simpa using inv.under e he
  · intro hlen key hkey
    rw [keysOf_map_bump] at hkey
    rw [List.length_map] at hlen
    have hky : key ≠ y := fun h => hkey (h ▸ hykeys)
    rw [count_app_single, if_neg (fun h => hky h.symm)]
    simpa using inv.miss0 hlen key hkey
  · intro hlen key hkey e' he'
    rw [keysOf_map_bump] at hkey
    rw [List.length_map] at hlen
    have hky : key ≠ y := fun h => hkey (h ▸ hykeys)
    rw [count_app_single, if_neg (fun h => hky h.symm)]
    obtain ⟨e, he, rfl⟩ := List.mem_map.mp he'
    have := inv.missle hlen key hkey e he
    have := bump_count_ge y e
    simpa using by omega
  · intro _
    have hne' : s.entries.map (bump y) ≠ [] := by
      simpa using hne
    by_cases hmk : s.minKey = y
    · rw [if_pos hmk]
      obtain ⟨m, hmem, heq, hmin⟩ := recomputeMin_spec _ hne'
      exact ⟨m, hmem, heq, hmin⟩
    · rw [if_neg hmk]
      obtain ⟨me, hme, hmkey, hmin⟩ := inv.mincache hne
      have hmey : me.Key ≠ y := fun h => hmk (hmkey.trans h)
      refine ⟨me, ?_, hmkey, ?_⟩
      · have := List.mem_map_of_mem (bump y) hme
        rwa [bump_of_ne hmey] at this
      · intro e' he'
        obtain ⟨e, he, rfl⟩ := List.mem_map.mp he'
        have := hmin e he
        have := bump_count_ge y e
        omega

lemma step_room {k : Nat} {adds : List String} {s : SpaceSaver}
    (inv : SSInv k adds s) {y : String}
    (hfind : SpaceSaver.findEntry s.entries y = none)
    (hroom : s.entries.length < s.k) :
    SSInv k (adds ++ [y]) (s.Add y) := by
  have hAll := findEntry_none hfind
  have hykeys : y ∉ keysOf s.entries := by
    rw [mem_keysOf]
    rintro ⟨e, he, hkey⟩
    exact hAll e he hkey
  have hroomk : s.entries.length < k := inv.hk ▸ hroom
  have hcount0 : adds.count y = 0 := inv.miss0 hroomk y hykeys
  have hynotin : y ∉ adds := List.count_eq_zero.mp hcount0
  have hadd : s.Add y = { s with
      entries := s.entries ++ [{ Key := y, Count := 1, Error := 0 }],
      minKey :=
        match SpaceSaver.findEntry s.entries s.minKey with
        | none => y
        | some minEntry => if minEntry.Count > 1 then y else s.minKey } := by
    simp only [SpaceSaver.Add, hfind, if_pos hroom]
  have hkeys' : keysOf (s.entries ++ [{ Key := y, Count := 1, Error := 0 }])
      = keysOf s.entries ++ [y] := by
    simp [keysOf]
  have hmem' : ∀ e', e' ∈ s.entries ++ [{ Key := y, Count := 1, Error := 0 }] →
      e' ∈ s.entries ∨ e' = { Key := y, Count := 1, Error := 0 } := by
    intro e' he'
    rcases List.mem_append.mp he' with h | h
    · exact Or.inl h
    · exact Or.inr (by simpa using h)
  rw [hadd]
  refine ⟨inv.hk, ?_, ?_, ?_, ?_, ?_, ?_, ?_, ?_⟩
  · show (keysOf _).Nodup
    rw [hkeys']
    refine List.Nodup.append inv.nodup (by simp) ?_
    intro a ha hb
    simp at hb
    subst hb
    exact hykeys ha
  · show (s.entries ++ [({ Key := y, Count := 1, Error := 0 } : SpaceSaverEntry)]).length = _
    rw [List.length_append, card_app_not_mem hynotin]
    have := inv.size
    simp only [List.length_singleton]
    omega
  · intro e' he'
    rcases hmem' e' he' with h | h
    · exact inv.errlt e' h
    · rw [h]
  · intro e' he'
    rcases hmem' e' he' with h | h
    · rw [count_app_single, if_neg (fun hcon => hAll e' h hcon.symm)]
      simpa using inv.over e' h
    · rw [h, count_app_single]
      simp [hcount0]
  · intro e' he'
    rcases hmem' e' he' with h | h
    · rw [count_app_single, if_neg (fun hcon => hAll e' h hcon.symm)]
      simpa using inv.under e' h
    · rw [h, count_app_single]
      simp [hcount0]
  · intro hlen key hkey
    rw [hkeys'] at hkey
    have hky : key ≠ y := fun hcon => hkey (by simp [hcon])
    have hkold : key ∉ keysOf s.entries := fun hcon => hkey (by simp [hcon])
    rw [count_app_single, if_neg (fun hcon => hky hcon.symm)]
    simpa using inv.miss0 hroomk key hkold
  · intro _ key hkey e' _
    rw [hkeys'] at hkey
    have hky : key ≠ y := fun hcon => hkey (by simp [hcon])
    have hkold : key ∉ keysOf s.entries := fun hcon => hkey (by simp [hcon])
    rw [count_app_single, if_neg (fun hcon => hky hcon.symm)]
    have := inv.miss0 hroomk key hkold
    omega
  · intro _
    show ∃ me ∈ s.entries ++ [({ Key := y, Count := 1, Error := 0 } : SpaceSaverEntry)],
        (match SpaceSaver.findEntry s.entries s.minKey with
          | none => y
          | some minEntry => if minEntry.Count > 1 then y else s.minKey) = me.Key ∧
        ∀ e ∈ s.entries ++ [({ Key := y, Count := 1, Error := 0 } : SpaceSaverEntry)],
          me.Count ≤ e.Count
    by_cases hes : s.entries = []
    · have hfe0 : SpaceSaver.findEntry s.entries s.minKey = none := by
        rw [hes]; rfl
      simp only [hfe0]
      refine ⟨{ Key := y, Count := 1, Error := 0 }, by simp, rfl, ?_⟩
      intro e' he'
      rw [hes] at he'
      simp at he'
      rw [he']
    · obtain ⟨me, hme, hmkey, hmin⟩ := inv.mincache hes
      have hfe : SpaceSaver.findEntry s.entries s.minKey = some me := by
        rw [hmkey]
        exact findEntry_of_mem inv.nodup hme
      simp only [hfe]
      by_cases hgt : me.Count > 1
      · refine ⟨{ Key := y, Count := 1, Error := 0 }, by simp, by simp [hgt], ?_⟩
        intro e' he'
        rcases hmem' e' he' with h | h
        · have := inv.errlt e' h
          simpa using by omega
        · rw [h]
      · refine ⟨me, List.mem_append_left _ hme, by simp [hgt, hmkey], ?_⟩
        intro e' he'
        rcases hmem' e' he' with h | h
        · exact hmin e' h
        · rw [h]
          simpa using by omega

lemma step_full {k : Nat} {adds : List String} {s : SpaceSaver}
    (inv : SSInv k adds s) (hkpos : 0 < k) {y : String}
    (hfind : SpaceSaver.findEntry s.entries y = none)
    (hfull : ¬ s.entries.length < s.k) :
    SSInv k (adds ++ [y]) (s.Add y) := by
  have hAll := findEntry_none hfind
  have hykeys : y ∉ keysOf s.entries := by
    rw [mem_keysOf]
    rintro ⟨e, he, hkey⟩
    exact hAll e he hkey
  have hfullk : ¬ s.entries.length < k := inv.hk ▸ hfull
  have hlen : s.entries.length = k := by
    have h1 := inv.size
    omega
  have hcard : k ≤ adds.toFinset.card := by
    have h1 := inv.size
    omega
  have hne : s.entries ≠ [] := by
    intro h
    rw [h] at hlen
    simp at hlen
    omega
  obtain ⟨me, hme, hmkey, hmin⟩ := inv.mincache hne
  have hfe1 : SpaceSaver.findEntry s.entries s.minKey = some me := by
    rw [hmkey]
    exact findEntry_of_mem inv.nodup hme
  have hadd : s.Add y = { s with
      entries := (s.entries.filter (fun e => ¬ e.Key = s.minKey)) ++
        [{ Key := y, Count := me.Count + 1, Error := me.Count }],
      minKey := SpaceSaver.recomputeMin
        ((s.entries.filter (fun e => ¬ e.Key = s.minKey)) ++
          [{ Key := y, Count := me.Count + 1, Error := me.Count }]) } := by
    simp only [SpaceSaver.Add, hfind, if_neg hfull, hfe1]
  obtain ⟨l1, l2, hsplit⟩ := List.append_of_mem hme
  have hkeysplit : keysOf s.entries = keysOf l1 ++ me.Key :: keysOf l2 := by
    rw [hsplit]
    simp [keysOf]
  have hnd := inv.nodup
  rw [hkeysplit] at hnd
  have hnd2 := List.nodup_middle.mp hnd
  have hmenotin : me.Key ∉ keysOf l1 ++ keysOf l2 := (List.nodup_cons.mp hnd2).1
  have hl1 : ∀ e ∈ l1, ¬ e.Key = s.minKey := by
    intro e he hcon
    exact hmenotin (List.mem_append.mpr (Or.inl
      (mem_keysOf.mpr ⟨e, he, by rw [hcon, hmkey]⟩)))
  have hl2 : ∀ e ∈ l2, ¬ e.Key = s.minKey := by
    intro e he hcon
    exact hmenotin (List.mem_append.mpr (Or.inr
      (mem_keysOf.mpr ⟨e, he, by rw [hcon, hmkey]⟩)))
  have hfilter : s.entries.filter (fun e => ¬ e.Key = s.minKey) = l1 ++ l2 := by
    rw [hsplit, List.filter_append, List.filter_cons]
    have hc : ¬ (decide ¬ (me.Key = s.minKey)) = true := by
      simp [hmkey]
    rw [if_neg hc,
      List.filter_eq_self.mpr (fun e he => by simpa using hl1 e he),
      List.filter_eq_self.mpr (fun e he => by simpa using hl2 e he)]
  have hmemF : ∀ e ∈ l1 ++ l2, e ∈ s.entries := by
    intro e he
    rw [hsplit]
    rcases List.mem_append.mp he with h | h
    · exact List.mem_append.mpr (Or.inl h)
    · exact List.mem_append.mpr (Or.inr (List.mem_cons.mpr (Or.inr h)))
  have hlen_es : s.entries.length = l1.length + 1 + l2.length := by
    rw [hsplit]
    simp
    omega
  have hykeysF : y ∉ keysOf (l1 ++ l2) := by
    rw [mem_keysOf]
    rintro ⟨e, he, hkey⟩
    exact hAll e (hmemF e he) hkey
  have hcount_y : adds.count y ≤ me.Count := inv.missle hlen y hykeys me hme
  have hmem' : ∀ e', e' ∈ (l1 ++ l2) ++
        [({ Key := y, Count := me.Count + 1, Error := me.Count } : SpaceSaverEntry)] →
      e' ∈ l1 ++ l2 ∨ e' = { Key := y, Count := me.Count + 1, Error := me.Count } := by
    intro e' he'
    rcases List.mem_append.mp he' with h | h
    · exact Or.inl h
    · exact Or.inr (by simpa using h)
  rw [hadd, hfilter]
  refine ⟨inv.hk, ?_, ?_, ?_, ?_, ?_, ?_, ?_, ?_⟩
  · show (keysOf _).Nodup
    have hkeys' : keysOf ((l1 ++ l2) ++
        [({ Key := y, Count := me.Count + 1, Error := me.Count } : SpaceSaverEntry)])
        = (keysOf l1 ++ keysOf l2) ++ [y] := by
      simp [keysOf]
    rw [hkeys']
    refine List.Nodup.append (List.nodup_cons.mp hnd2).2 (by simp) ?_
    intro a ha hb
    simp at hb
    subst hb
    apply hykeysF
    have hksplit2 : keysOf (l1 ++ l2) = keysOf l1 ++ keysOf l2 := by simp [keysOf]
    rw [hksplit2]
    exact ha
  · show ((l1 ++ l2) ++ _).length = _
    have hcard' : adds.toFinset.card ≤ (adds ++ [y]).toFinset.card := by
      by_cases hy : y ∈ adds
      · rw [card_app_mem hy]
      · rw [card_app_not_mem hy]
        omega
    simp only [List.length_append, List.length_singleton]
    omega
  · intro e' he'
    rcases hmem' e' he' with h | h
    · exact inv.errlt e' (hmemF e' h)
    · rw [h]
  · intro e' he'
    rcases hmem' e' he' with h | h
    · rw [count_app_single, if_neg (fun hcon => hAll e' (hmemF e' h) hcon.symm)]
      simpa using inv.over e' (hmemF e' h)
    · rw [h, count_app_single]
      simp only [if_pos rfl]
      show adds.count y + 1 ≤ me.Count + 1
      omega
  · intro e' he'
    rcases hmem' e' he' with h | h
    · rw [count_app_single, if_neg (fun hcon => hAll e' (hmemF e' h) hcon.symm)]
      simpa using inv.under e' (hmemF e' h)
    · rw [h, count_app_single]
      simp only [if_pos rfl]
      show me.Count + 1 ≤ me.Count + (adds.count y + 1)
      omega
  · intro hlt
    simp only [List.length_append, List.length_singleton] at hlt
    omega
  · intro _ key hkey e' he'
    have hkeys' : keysOf ((l1 ++ l2) ++
        [({ Key := y, Count := me.Count + 1, Error := me.Count } : SpaceSaverEntry)])
        = keysOf (l1 ++ l2) ++ [y] := by
      simp [keysOf]
    rw [hkeys'] at hkey
    have hky : key ≠ y := fun hcon => hkey (by simp [hcon])
    have hkF : key ∉ keysOf (l1 ++ l2) := fun hcon => hkey (by simp [hcon])
    rw [count_app_single, if_neg (fun hcon => hky hcon.symm)]
    by_cases hkm : key = me.Key
    · have h1 : adds.count key ≤ me.Count := by
        rw [hkm]
        exact inv.over me hme
      rcases hmem' e' he' with h | h
      · have := hmin e' (hmemF e' h)
        omega
      · rw [h]
        show adds.count key + 0 ≤ me.Count + 1
        omega
    · have hknotes : key ∉ keysOf s.entries := by
        rw [hkeysplit]
        intro hcon
        rcases List.mem_append.mp hcon with h | h
        · exact hkF (by rw [keysOf, List.map_append, List.mem_append]; exact Or.inl h)
        · rcases List.mem_cons.mp h with h2 | h2
          · exact hkm h2
          · exact hkF (by rw [keysOf, List.map_append, List.mem_append]; exact Or.inr h2)
      rcases hmem' e' he' with h | h
      · have := inv.missle hlen key hknotes e' (hmemF e' h)
        omega
      · rw [h]
        have := inv.missle hlen key hknotes me hme
        show adds.count key + 0 ≤ me.Count + 1
        omega
  · intro _
    obtain ⟨m, hmem, heq, hminm⟩ := recomputeMin_spec
      ((l1 ++ l2) ++ [({ Key := y, Count := me.Count + 1, Error := me.Count } : SpaceSaverEntry)])
      (by simp)
    exact ⟨m, hmem, heq, hminm⟩

lemma SSInv.step {k : Nat} {adds : List String} {s : SpaceSaver}
    (inv : SSInv k adds s) (hkpos : 0 < k) (y : String) :
    SSInv k (adds ++ [y]) (s.Add y) := by
  rcases hfind : SpaceSaver.findEntry s.entries y with _ | e0
  · by_cases hroom : s.entries.length < s.k
    · exact step_room inv hfind hroom
    · exact step_full inv hkpos hfind hroom
  · exact step_tracked inv hfind

lemma SSInv.init (k : Nat) : SSInv k [] (NewSpaceSaver k) := by
  refine ⟨rfl, by simp [NewSpaceSaver, keysOf], by simp [NewSpaceSaver], ?_, ?_, ?_, ?_, ?_, ?_⟩
  · intro e he; simp [NewSpaceSaver] at he
  · intro e he; simp [NewSpaceSaver] at he
  · intro e he; simp [NewSpaceSaver] at he
  · intro _ key _; simp
  · intro _ key _ e he; simp [NewSpaceSaver] at he
  · intro h; simp [NewSpaceSaver] at h

lemma runAdds_inv {k : Nat} (hkpos : 0 < k) :
    ∀ (rest processed : List String) (s : SpaceSaver),
      SSInv k processed s → SSInv k (processed ++ rest) (s.runAdds rest) := by
  intro rest
  induction rest with
  | nil =>
    intro processed s inv
    simpa [SpaceSaver.runAdds] using inv
  | cons r rest ih =>
    intro processed s inv
    have h1 := ih (processed ++ [r]) (s.Add r) (inv.step hkpos r)
    rw [List.append_assoc] at h1
    simpa [SpaceSaver.runAdds] using h1

/-- C5: after any sequence of sequential `Add` calls on a fresh
Space-Saving tracker of capacity `k > 0`, the number of tracked
entries is `min k (#distinct keys added)`, and every tracked entry's
stored count is at least the key's true frequency in the sequence
while `count − error` is at most the true frequency
(`count ≤ error + freq` in `Nat` form). -/
theorem C5_space_saving (k : Nat) (hkpos : 0 < k) (adds : List String) :
    (SpaceSaver.runAdds (NewSpaceSaver k) adds).entries.length
        = min k adds.toFinset.card ∧
    ∀ e ∈ (SpaceSaver.runAdds (NewSpaceSaver k) adds).entries,
      adds.count e.Key ≤ e.Count ∧ e.Count ≤ e.Error + adds.count e.Key := by
  have hinv := runAdds_inv hkpos adds [] (NewSpaceSaver k) (SSInv.init k)
  rw [List.nil_append] at hinv
  exact ⟨hinv.size, fun e he => ⟨hinv.over e he, hinv.under e he⟩⟩

/-- C5 witnessed: capacity 2, adds `a b a c` — two tracked entries
(min 2 3), and the surviving `c` entry has `count = 2`, `error = 1`,
bracketing its true frequency 1. -/
theorem C5_witness :
    ((SpaceSaver.runAdds (NewSpaceSaver 2) ["a", "b", "a", "c"]).entries.length
        = min 2 (["a", "b", "a", "c"] : List String).toFinset.card) ∧
    (["a", "b", "a", "c"] : List String).count
        ({ Key := "c", Count := 2, Error := 1 } : SpaceSaverEntry).Key
      ≤ ({ Key := "c", Count := 2, Error := 1 } : SpaceSaverEntry).Count ∧
    ({ Key := "c", Count := 2, Error := 1 } : SpaceSaverEntry).Count
      ≤ ({ Key := "c", Count := 2, Error := 1 } : SpaceSaverEntry).Error
        + (["a", "b", "a", "c"] : List String).count
            ({ Key := "c", Count := 2, Error := 1 } : SpaceSaverEntry).Key := by
  have h := C5_space_saving 2 (by decide) ["a", "b", "a", "c"]
  exact ⟨h.1, h.2 { Key := "c", Count := 2, Error := 1 } (by decide)⟩

/-! ### C7 — the stats callback reports `count − error` -/

lemma mem_insertByCountDesc {a e : SpaceSaverEntry} {l : List SpaceSaverEntry} :
    a ∈ insertByCountDesc e l ↔ a = e ∨ a ∈ l := by
  induction l with
  | nil => simp [insertByCountDesc]
  | cons x xs ih =>
    unfold insertByCountDesc
    by_cases h : x.Count ≤ e.Count
    · simp [h]
    · simp only [if_neg h, List.mem_cons, ih]
      tauto

lemma mem_sortByCountDesc {a : SpaceSaverEntry} {l : List SpaceSaverEntry} :
    a ∈ sortByCountDesc l ↔ a ∈ l := by
  induction l with
  | nil => simp [sortByCountDesc]
  | cons x xs ih => simp [sortByCountDesc, mem_insertByCountDesc, ih]

/-- C7: for every reachable tracker state and every entry in the
`TopN` snapshot, the downstream metric callback exposes exactly
`count − error` for that entry's key — a lower bound of the true
frequency (and non-negative) — not the raw count. -/
theorem C7_reported_value (k : Nat) (hkpos : 0 < k) (adds : List String)
    (topK : Nat) :
    ∀ e ∈ (SpaceSaver.runAdds (NewSpaceSaver k) adds).TopN topK,
      ((e.Key, (e.Count : Int) - (e.Error : Int))
          ∈ newSpaceSaverStatsCallback (SpaceSaver.runAdds (NewSpaceSaver k) adds) topK) ∧
      (e.Count : Int) - (e.Error : Int) ≤ (adds.count e.Key : Int) ∧
      0 ≤ (e.Count : Int) - (e.Error : Int) := by
  intro e he
  have hinv := runAdds_inv hkpos adds [] (NewSpaceSaver k) (SSInv.init k)
  rw [List.nil_append] at hinv
  have hent : e ∈ (SpaceSaver.runAdds (NewSpaceSaver k) adds).entries := by
    have h1 : e ∈ sortByCountDesc (SpaceSaver.runAdds (NewSpaceSaver k) adds).entries :=
      List.mem_of_mem_take he
    exact mem_sortByCountDesc.mp h1
  refine ⟨?_, ?_, ?_⟩
  · exact List.mem_map_of_mem _ he
  · have := hinv.under e hent
    omega
  · have := hinv.errlt e hent
    omega

/-- C7 witnessed: for adds `a b a c` at capacity 2, the `c` entry is
reported as `2 − 1 = 1`, not the raw count 2. -/
theorem C7_witness :
    ((({ Key := "c", Count := 2, Error := 1 } : SpaceSaverEntry).Key,
        ((({ Key := "c", Count := 2, Error := 1 } : SpaceSaverEntry).Count : Int)
          - (({ Key := "c", Count := 2, Error := 1 } : SpaceSaverEntry).Error : Int)))
        ∈ newSpaceSaverStatsCallback
            (SpaceSaver.runAdds (NewSpaceSaver 2) ["a", "b", "a", "c"]) 5) ∧
    ((({ Key := "c", Count := 2, Error := 1 } : SpaceSaverEntry).Count : Int)
        - (({ Key := "c", Count := 2, Error := 1 } : SpaceSaverEntry).Error : Int)
      ≤ ((["a", "b", "a", "c"] : List String).count
          ({ Key := "c", Count := 2, Error := 1 } : SpaceSaverEntry).Key : Int)) ∧
    (0 : Int) ≤ (({ Key := "c", Count := 2, Error := 1 } : SpaceSaverEntry).Count : Int)
        - (({ Key := "c", Count := 2, Error := 1 } : SpaceSaverEntry).Error : Int) :=
  C7_reported_value 2 (by decide) ["a", "b", "a", "c"] 5
    { Key := "c", Count := 2, Error := 1 } (by decide)

end DotBlock
